import Mathlib

/-
Verification of the `proveValueForKeyIsInSignedMerkleTreeAndWithinBounds` circom
circuit and the surrounding JavaScript services of the zkp-test repository.

The circuit is shallowly embedded as a constraint-satisfaction predicate over the
scalar field of BN254 (the prime field circom compiles to).  Signals are field
elements; every `<==`/`===` constraint of the source becomes a propositional
conjunct.  The Poseidon hash and the EdDSA verification equation are gadgets
imported from circomlib; they enter the embedding as parameters
(`CircuitParams`), so every theorem below holds for an arbitrary instantiation
of those primitives.
-/

set_option maxRecDepth 40000

/-- Fast modular exponentiation with explicit fuel, used to evaluate the
Lucas primality certificates for the BN254 scalar field modulus by kernel
reduction. -/
def powModAux : Nat → Nat → Nat → Nat → Nat
  | 0, n, _, _ => 1 % n
  | fuel+1, n, a, k =>
    if k = 0 then 1 % n
    else
      let r := powModAux fuel n (a * a % n) (k / 2)
      if k % 2 = 1 then r * (a % n) % n else r

/-- Modular exponentiation `a ^ k % n` for exponents below `2 ^ 300`. -/
def powMod (n a k : Nat) : Nat := powModAux 300 n a k

/-- The BN254 scalar field modulus: the prime over which circom 2.x circuits
are compiled by default. -/
def p : Nat := 21888242871839275222246405745257275088548364400416034343698204186575808495617

/-- The field of circuit signals. -/
abbrev F := ZMod p

/-- Constraints of circomlib `Num2Bits(n)` applied to input `inp` with output
signals `out`: every output is boolean (`out[i] * (out[i] - 1) === 0`) and
`Σ out[i] * 2^i === in`.  The outputs are hint-assigned (`<--`) in the source,
so a witness may choose them freely subject to these constraints. -/
def Num2BitsConstraints (n : Nat) (inp : F) (out : Nat → F) : Prop :=
  (∀ i < n, out i * (out i - 1) = 0) ∧ (∑ i in Finset.range n, out i * 2^i) = inp

/-- The canonical bit decomposition of a natural number, viewed in `F`;
this is the witness the circom hint `(in >> i) & 1` computes. -/
def natBits (x i : Nat) : F := ((x / 2^i % 2 : Nat) : F)

/-- Constraints of circomlib `LessThan(n)`: an internal `Num2Bits(n+1)` is fed
`in[0] + 2^n - in[1]` and the output is `1 - n2b.out[n]`. -/
def LessThanConstraints (n : Nat) (in0 in1 : F) (bits : Nat → F) (out : F) : Prop :=
  Num2BitsConstraints (n+1) (in0 + 2^n - in1) bits ∧ out = 1 - bits n

/-- Constraints of circomlib `GreaterThan(n)`: a `LessThan(n)` with its two
inputs swapped. -/
def GreaterThanConstraints (n : Nat) (in0 in1 : F) (bits : Nat → F) (out : F) : Prop :=
  LessThanConstraints n in1 in0 bits out

/-- The cryptographic gadgets the circuit imports from circomlib.  `poseidon1`
and `poseidon2` are the 1-ary and 2-ary Poseidon hashes; `eddsaVerifies Ax Ay S
R8x R8y M` is the EdDSA-over-Poseidon verification equation enforced by
`EdDSAPoseidonVerifier` when it is enabled. -/
structure CircuitParams where
  poseidon1 : F → F
  poseidon2 : F → F → F
  eddsaVerifies : F → F → F → F → F → F → Prop

/-- Constraints contributed by circomlib `EdDSAPoseidonVerifier`: the
verification equation is forced exactly when `enabled` is nonzero.  The gadget
has no output signal. -/
def EdDSAPoseidonVerifierConstraints (P : CircuitParams)
    (enabled Ax Ay S R8x R8y M : F) : Prop :=
  enabled ≠ 0 → P.eddsaVerifies Ax Ay S R8x R8y M

/-- The input signals of the template, with the source's names.  Arrays are
total functions; only the first `depth` (resp. 2) entries are ever read. -/
structure Inputs where
  key : F
  value : F
  index : F
  siblings : Nat → F
  root : F
  lowerbound : F
  upperbound : F
  pubKey : Nat → F
  signedRoot_R8 : Nat → F
  signedRoot_S : F

/-- The internal hint-assigned signals a witness must supply: the outputs of
the four bit decompositions and the two comparator outputs. -/
structure Aux where
  indexBits : Nat → F
  valueBits : Nat → F
  upperboundBits : Nat → F
  ltBits : Nat → F
  gtBits : Nat → F
  ltOut : F
  gtOut : F

/-- The `merkleHash` signal chain of the source: level 0 is `Poseidon(value)`;
level `i+1` hashes the level-`i` hash and `siblings[i]`, with the operand
order selected by `indexBits[i]` through the source's multiplication-based
branch-free select. -/
def merkleHash (P : CircuitParams) (value : F) (indexBits siblings : Nat → F) : Nat → F
  | 0 => P.poseidon1 value
  | i+1 =>
    P.poseidon2
      ((1 - indexBits i) * merkleHash P value indexBits siblings i + indexBits i * siblings i)
      (indexBits i * merkleHash P value indexBits siblings i + (1 - indexBits i) * siblings i)

/-- The full constraint system of
`proveValueForKeyIsInSignedMerkleTreeAndWithinBounds(depth)`, conjunct by
conjunct in source order: the four `Num2Bits` instances, the two comparators
with their `=== 1` assertions, the `siblings[0] === keyHash` key binding, the
`root === merkleHash[depth]` assertion, and the always-enabled EdDSA check of
`root` against `pubKey` and `(signedRoot_R8, signedRoot_S)`. -/
def CircuitConstraints (P : CircuitParams) (depth : Nat) (inp : Inputs) (w : Aux) : Prop :=
  Num2BitsConstraints depth inp.index w.indexBits ∧
  Num2BitsConstraints 64 inp.value w.valueBits ∧
  Num2BitsConstraints 64 inp.upperbound w.upperboundBits ∧
  LessThanConstraints 64 inp.value inp.upperbound w.ltBits w.ltOut ∧
  w.ltOut = 1 ∧
  GreaterThanConstraints 64 inp.value inp.lowerbound w.gtBits w.gtOut ∧
  w.gtOut = 1 ∧
  inp.siblings 0 = P.poseidon1 inp.key ∧
  inp.root = merkleHash P inp.value w.indexBits inp.siblings depth ∧
  EdDSAPoseidonVerifierConstraints P 1 (inp.pubKey 0) (inp.pubKey 1) inp.signedRoot_S
    (inp.signedRoot_R8 0) (inp.signedRoot_R8 1) inp.root

/-- Satisfiability of the circuit for a given assignment of the input
signals: some choice of the hint-assigned signals meets every constraint. -/
def Satisfiable (P : CircuitParams) (depth : Nat) (inp : Inputs) : Prop :=
  ∃ w : Aux, CircuitConstraints P depth inp w

/-- The signals of the instantiated depth-5 component `main`, one constructor
per scalar signal of the template's input interface. -/
inductive MainSignal
  | key
  | value
  | index
  | siblings (i : Fin 5)
  | root
  | lowerbound
  | upperbound
  | pubKey (i : Fin 2)
  | signedRoot_R8 (i : Fin 2)
  | signedRoot_S

/-- Visibility of each input signal of `main`, read off the declaration
`component main { public [key, lowerbound, upperbound, pubKey] } = ...(5)`:
exactly the listed signals are public, everything else is private. -/
def mainSignalIsPublic : MainSignal → Bool
  | .key => true
  | .lowerbound => true
  | .upperbound => true
  | .pubKey _ => true
  | _ => false

/-- A trivial instantiation of the cryptographic gadgets, used to build
concrete satisfying assignments: both hashes are constantly `0` and the
signature equation always holds. -/
def P0 : CircuitParams where
  poseidon1 := fun _ => 0
  poseidon2 := fun _ _ => 0
  eddsaVerifies := fun _ _ _ _ _ _ => True

/-- A concrete input assignment that satisfies the circuit under `P0`:
`value = 1` inside the open interval `(0, 2)`, leaf index `0`, all tree data
`0`. -/
def inp0 : Inputs where
  key := 0
  value := ((1 : Nat) : F)
  index := 0
  siblings := fun _ => 0
  root := 0
  lowerbound := ((0 : Nat) : F)
  upperbound := ((2 : Nat) : F)
  pubKey := fun _ => 0
  signedRoot_R8 := fun _ => 0
  signedRoot_S := 0

/-- Hint signals completing `inp0` to a full witness. -/
def aux0 : Aux where
  indexBits := fun _ => 0
  valueBits := natBits 1
  upperboundBits := natBits 2
  ltBits := natBits (2^64 - 1)
  gtBits := natBits (2^64 - 1)
  ltOut := 1
  gtOut := 1

/-- `inp0` with a level-0 sibling different from the key hash. -/
def inpC2 : Inputs := { inp0 with siblings := fun _ => 1 }

/-- `inp0` with `lowerbound` replaced by the field element whose canonical
representative is `p - 2^64 + 1`, far above `2^64`. -/
def inpC4 : Inputs := { inp0 with lowerbound := ((p - 2^64 + 1 : Nat) : F) }

/-- Hint signals completing `inpC4` to a full witness: the `GreaterThan`
decomposition input is `lowerbound + 2^64 - value = p ≡ 0`, so all its bits
are `0` and its output is still `1`. -/
def auxC4 : Aux := { aux0 with gtBits := fun _ => 0 }

/-- `P0` with a nontrivial signature equation: it verifies exactly the
message `1`. -/
def P1 : CircuitParams := { P0 with eddsaVerifies := fun _ _ _ _ _ M => M = 1 }

/-- The leaves built by `MerkleTreeService.buildTree`: each key-value pair
contributes `poseidon1(key)` followed by `poseidon1(value)`, in data order. -/
def buildLeaves (h1 : F → F) : List (F × F) → List F
  | [] => []
  | (k, v) :: rest => h1 k :: h1 v :: buildLeaves h1 rest

/-- One parent level of a lean incremental Merkle tree (the `@zk-kit/lean-imt`
dependency of `merkleTree.js`): adjacent nodes are hashed pairwise and a
trailing node with no sibling is promoted unchanged. -/
def nextLevel (h2 : F → F → F) : List F → List F
  | [] => []
  | [a] => [a]
  | a :: b :: rest => h2 a b :: nextLevel h2 rest

/-- The root of a lean incremental Merkle tree: hash levels until one node
remains.  `fuel` bounds the number of levels; the leaf count always
suffices. -/
def treeRootAux (h2 : F → F → F) : Nat → List F → F
  | 0, l => l.headD 0
  | fuel+1, l => if l.length ≤ 1 then l.headD 0 else treeRootAux h2 fuel (nextLevel h2 l)

/-- The sibling path `generateProof` of `@zk-kit/lean-imt` collects for leaf
position `j`: at each level the node at `j-1` (if `j` is odd) or `j+1` (if
even) is appended when it exists, and the position is halved. -/
def proofSiblingsAux (h2 : F → F → F) : Nat → List F → Nat → List F
  | 0, _, _ => []
  | fuel+1, level, j =>
    if level.length ≤ 1 then []
    else
      let rest := proofSiblingsAux h2 fuel (nextLevel h2 level) (j / 2)
      match level.get? (if j % 2 = 1 then j - 1 else j + 1) with
      | some s => s :: rest
      | none => rest

/-- The data returned by `MerkleTreeService.getProof` (the key and value
fields are the caller's own data and are omitted). -/
structure MerkleProofData where
  index : Nat
  siblings : List F
  root : F

/-- `MerkleTreeService.getProof(i)`: bounds-check `i` against the data list
(the source throws, modelled as `none`), then prove the leaf at position
`valueIndex = 2*i + 1` of the tree built from `buildLeaves`. -/
def getProof (h1 : F → F) (h2 : F → F → F) (data : List (F × F)) (i : Nat) :
    Option MerkleProofData :=
  if i < data.length then
    let leaves := buildLeaves h1 data
    some { index := 2*i + 1,
           siblings := proofSiblingsAux h2 leaves.length leaves (2*i + 1),
           root := treeRootAux h2 leaves.length leaves }
  else none

/-- `ProofService.verifyProof`: load the verification key (which may throw),
call `snarkjs.groth16.verify` (which may throw), and return its boolean;
every thrown error is caught and turned into `false`. -/
def verifyProofImpl {VK : Type} (loadVKey : Except String VK)
    (groth16Verify : VK → Except String Bool) : Bool :=
  match loadVKey with
  | .error _ => false
  | .ok vk =>
    match groth16Verify vk with
    | .error _ => false
    | .ok b => b

/-- A JavaScript `string | bigint` union value, as accepted by
`SignatureService.verify`. -/
inductive JSValue
  | big (v : F)
  | str (s : String)

/-- The `typeof x === 'bigint' ? x : BigInt(x)` conversion of the source:
already-big values pass through, strings go through `BigInt(...)`, which may
throw (`parse` returning `Except.error`). -/
def toBigInt (parse : String → Except String F) : JSValue → Except String F
  | .big v => .ok v
  | .str s => parse s

/-- `SignatureService.verify`: convert the message, the public key and the
signature in source order, call `verifySignature` (which may throw), and
return its boolean; any exception along the way is caught and yields
`false`. -/
def signatureVerifyImpl (parse : String → Except String F)
    (verifySignature : F → (F × F) × F → F × F → Except String Bool)
    (message pk0 pk1 sigR8x sigR8y sigS : JSValue) : Bool :=
  match toBigInt parse message with
  | .error _ => false
  | .ok m =>
    match toBigInt parse pk0 with
    | .error _ => false
    | .ok a0 =>
      match toBigInt parse pk1 with
      | .error _ => false
      | .ok a1 =>
        match toBigInt parse sigR8x with
        | .error _ => false
        | .ok r0 =>
          match toBigInt parse sigR8y with
          | .error _ => false
          | .ok r1 =>
            match toBigInt parse sigS with
            | .error _ => false
            | .ok s =>
              match verifySignature m ((r0, r1), s) (a0, a1) with
              | .error _ => false
              | .ok b => b

lemma powModAux_eq (fuel : Nat) : ∀ k, k < 2^fuel → ∀ n a, powModAux fuel n a k = a ^ k % n := by
  induction fuel with
  | zero =>
    intro k hk n a
    interval_cases k
    simp [powModAux]
  | succ fuel ih =>
    intro k hk n a
    by_cases hk0 : k = 0
    · simp [powModAux, hk0]
    · have hk2 : k / 2 < 2 ^ fuel := by
        rw [Nat.div_lt_iff_lt_mul (by norm_num)]
        calc k < 2 ^ (fuel + 1) := hk
        _ = 2 ^ fuel * 2 := by ring
      have hr := ih (k / 2) hk2 n (a * a % n)
      have hsplit : a ^ k = (a * a) ^ (k / 2) * a ^ (k % 2) := by
        rw [show a * a = a ^ 2 from (sq a).symm, ← pow_mul, ← pow_add]
        congr 1
        omega
      rcases Nat.mod_two_eq_zero_or_one k with h2 | h2
      · simp only [powModAux, hk0, if_false, h2]
        have hne : ¬ (0 = 1) := by norm_num
        rw [if_neg hne, hr, hsplit, h2, pow_zero, Nat.mul_one, ← Nat.pow_mod]
      · simp only [powModAux, hk0, if_false, h2, if_true]
        rw [hr, hsplit, h2, pow_one, ← Nat.pow_mod, Nat.mul_mod ((a*a)^(k/2)) a n]

lemma powMod_eq (n a k : Nat) (hk : k < 2^300) : powMod n a k = a ^ k % n :=
  powModAux_eq 300 k hk n a

lemma powModAux_lt (fuel : Nat) : ∀ k n a, 0 < n → powModAux fuel n a k < n := by
  induction fuel with
  | zero => intro k n a hn; simpa [powModAux] using Nat.mod_lt _ hn
  | succ fuel ih =>
    intro k n a hn
    by_cases hk0 : k = 0
    · simpa [powModAux, hk0] using Nat.mod_lt _ hn
    · rcases Nat.mod_two_eq_zero_or_one k with h2 | h2
      · have hne : ¬ (0 = 1) := by norm_num
        simp only [powModAux, hk0, if_false, h2]
        rw [if_neg hne]
        exact ih (k/2) n (a*a % n) hn
      · simp only [powModAux, hk0, if_false, h2, if_true]
        exact Nat.mod_lt _ hn

lemma powMod_lt (n a k : Nat) (hn : 0 < n) : powMod n a k < n := powModAux_lt 300 k n a hn

lemma natCast_pow_powMod (n a k : Nat) (hk : k < 2^300) :
    ((a : ZMod n)) ^ k = ((powMod n a k : Nat) : ZMod n) := by
  rw [powMod_eq n a k hk, ZMod.natCast_mod, Nat.cast_pow]

lemma natCast_zmod_ne (n a b : Nat) (ha : a < n) (hb : b < n) (hab : a ≠ b) :
    (a : ZMod n) ≠ (b : ZMod n) := by
  intro h
  apply hab
  have h2 := congrArg ZMod.val h
  rwa [ZMod.val_cast_of_lt ha, ZMod.val_cast_of_lt hb] at h2

lemma powMod_pow_eq_one (n a k : Nat) (_hn : 1 < n) (hk : k < 2^300)
    (h : powMod n a k = 1) : ((a : ZMod n)) ^ k = 1 := by
  rw [natCast_pow_powMod n a k hk, h, Nat.cast_one]

lemma powMod_pow_ne_one (n a k : Nat) (hn : 1 < n) (hk : k < 2^300)
    (h : powMod n a k ≠ 1) : ((a : ZMod n)) ^ k ≠ 1 := by
  rw [natCast_pow_powMod n a k hk]
  have h1 : (1 : ZMod n) = ((1 : Nat) : ZMod n) := by norm_num
  rw [h1]
  exact natCast_zmod_ne n _ 1 (powMod_lt n a k (by omega)) hn h

lemma prime_eq_of_dvd_pow (q r : Nat) (e : Nat) (hq : q.Prime) (hr : r.Prime)
    (h : q ∣ r ^ e) : q = r :=
  (Nat.prime_dvd_prime_iff_eq hq hr).mp (hq.dvd_of_dvd_pow h)
lemma prime_12048837557 : Nat.Prime 12048837557 := by
  apply lucas_primality 12048837557 ((2 : Nat) : ZMod 12048837557)
  · exact powMod_pow_eq_one _ _ _ (by norm_num) (by norm_num) (by decide)
  · intro q hq hdvd
    have hfac : (12048837557 - 1 : Nat) = 2^2 * (7^2 * (661 * (93001))) := by norm_num
    rw [hfac] at hdvd
    rcases (Nat.Prime.dvd_mul hq).mp hdvd with h | hrest
    · rw [prime_eq_of_dvd_pow q 2 2 hq (by norm_num) h]
      exact powMod_pow_ne_one _ _ _ (by norm_num) (by norm_num) (by decide)
    rcases (Nat.Prime.dvd_mul hq).mp hrest with h | hrest
    · rw [prime_eq_of_dvd_pow q 7 2 hq (by norm_num) h]
      exact powMod_pow_ne_one _ _ _ (by norm_num) (by norm_num) (by decide)
    rcases (Nat.Prime.dvd_mul hq).mp hrest with h | hrest
    · rw [(Nat.prime_dvd_prime_iff_eq hq (by norm_num)).mp h]
      exact powMod_pow_ne_one _ _ _ (by norm_num) (by norm_num) (by decide)
    rw [(Nat.prime_dvd_prime_iff_eq hq (by norm_num)).mp hrest]
    exact powMod_pow_ne_one _ _ _ (by norm_num) (by norm_num) (by decide)

lemma prime_5156902474397 : Nat.Prime 5156902474397 := by
  apply lucas_primality 5156902474397 ((2 : Nat) : ZMod 5156902474397)
  · exact powMod_pow_eq_one _ _ _ (by norm_num) (by norm_num) (by decide)
  · intro q hq hdvd
    have hfac : (5156902474397 - 1 : Nat) = 2^2 * (107 * (12048837557)) := by norm_num
    rw [hfac] at hdvd
    rcases (Nat.Prime.dvd_mul hq).mp hdvd with h | hrest
    · rw [prime_eq_of_dvd_pow q 2 2 hq (by norm_num) h]
      exact powMod_pow_ne_one _ _ _ (by norm_num) (by norm_num) (by decide)
    rcases (Nat.Prime.dvd_mul hq).mp hrest with h | hrest
    · rw [(Nat.prime_dvd_prime_iff_eq hq (by norm_num)).mp h]
      exact powMod_pow_ne_one _ _ _ (by norm_num) (by norm_num) (by decide)
    rw [(Nat.prime_dvd_prime_iff_eq hq prime_12048837557).mp hrest]
    exact powMod_pow_ne_one _ _ _ (by norm_num) (by norm_num) (by decide)

lemma prime_1670836401704629 : Nat.Prime 1670836401704629 := by
  apply lucas_primality 1670836401704629 ((2 : Nat) : ZMod 1670836401704629)
  · exact powMod_pow_eq_one _ _ _ (by norm_num) (by norm_num) (by decide)
  · intro q hq hdvd
    have hfac : (1670836401704629 - 1 : Nat) = 2^2 * (3^4 * (5156902474397)) := by norm_num
    rw [hfac] at hdvd
    rcases (Nat.Prime.dvd_mul hq).mp hdvd with h | hrest
    · rw [prime_eq_of_dvd_pow q 2 2 hq (by norm_num) h]
      exact powMod_pow_ne_one _ _ _ (by norm_num) (by norm_num) (by decide)
    rcases (Nat.Prime.dvd_mul hq).mp hrest with h | hrest
    · rw [prime_eq_of_dvd_pow q 3 4 hq (by norm_num) h]
      exact powMod_pow_ne_one _ _ _ (by norm_num) (by norm_num) (by decide)
    rw [(Nat.prime_dvd_prime_iff_eq hq prime_5156902474397).mp hrest]
    exact powMod_pow_ne_one _ _ _ (by norm_num) (by norm_num) (by decide)

lemma prime_639533339 : Nat.Prime 639533339 := by
  apply lucas_primality 639533339 ((2 : Nat) : ZMod 639533339)
  · exact powMod_pow_eq_one _ _ _ (by norm_num) (by norm_num) (by decide)
  · intro q hq hdvd
    have hfac : (639533339 - 1 : Nat) = 2 * (229 * (853 * 1637)) := by norm_num
    rw [hfac] at hdvd
    rcases (Nat.Prime.dvd_mul hq).mp hdvd with h | hrest
    · rw [(Nat.prime_dvd_prime_iff_eq hq (by norm_num)).mp h]
      exact powMod_pow_ne_one _ _ _ (by norm_num) (by norm_num) (by decide)
    rcases (Nat.Prime.dvd_mul hq).mp hrest with h | hrest
    · rw [(Nat.prime_dvd_prime_iff_eq hq (by norm_num)).mp h]
      exact powMod_pow_ne_one _ _ _ (by norm_num) (by norm_num) (by decide)
    rcases (Nat.Prime.dvd_mul hq).mp hrest with h | hrest
    · rw [(Nat.prime_dvd_prime_iff_eq hq (by norm_num)).mp h]
      exact powMod_pow_ne_one _ _ _ (by norm_num) (by norm_num) (by decide)
    rw [(Nat.prime_dvd_prime_iff_eq hq (by norm_num)).mp hrest]
    exact powMod_pow_ne_one _ _ _ (by norm_num) (by norm_num) (by decide)

lemma prime_65865678001877903 : Nat.Prime 65865678001877903 := by
  apply lucas_primality 65865678001877903 ((5 : Nat) : ZMod 65865678001877903)
  · exact powMod_pow_eq_one _ _ _ (by norm_num) (by norm_num) (by decide)
  · intro q hq hdvd
    have hfac : (65865678001877903 - 1 : Nat) = 2 * (83 * (379 * (1637 * (639533339)))) := by norm_num
    rw [hfac] at hdvd
    rcases (Nat.Prime.dvd_mul hq).mp hdvd with h | hrest
    · rw [(Nat.prime_dvd_prime_iff_eq hq (by norm_num)).mp h]
      exact powMod_pow_ne_one _ _ _ (by norm_num) (by norm_num) (by decide)
    rcases (Nat.Prime.dvd_mul hq).mp hrest with h | hrest
    · rw [(Nat.prime_dvd_prime_iff_eq hq (by norm_num)).mp h]
      exact powMod_pow_ne_one _ _ _ (by norm_num) (by norm_num) (by decide)
    rcases (Nat.Prime.dvd_mul hq).mp hrest with h | hrest
    · rw [(Nat.prime_dvd_prime_iff_eq hq (by norm_num)).mp h]
      exact powMod_pow_ne_one _ _ _ (by norm_num) (by norm_num) (by decide)
    rcases (Nat.Prime.dvd_mul hq).mp hrest with h | hrest
    · rw [(Nat.prime_dvd_prime_iff_eq hq (by norm_num)).mp h]
      exact powMod_pow_ne_one _ _ _ (by norm_num) (by norm_num) (by decide)
    rw [(Nat.prime_dvd_prime_iff_eq hq prime_639533339).mp hrest]
    exact powMod_pow_ne_one _ _ _ (by norm_num) (by norm_num) (by decide)

lemma prime_13818364434197438864469338081 : Nat.Prime 13818364434197438864469338081 := by
  apply lucas_primality 13818364434197438864469338081 ((3 : Nat) : ZMod 13818364434197438864469338081)
  · exact powMod_pow_eq_one _ _ _ (by norm_num) (by norm_num) (by decide)
  · intro q hq hdvd
    have hfac : (13818364434197438864469338081 - 1 : Nat) = 2^5 * (5 * (823 * (1593227 * (65865678001877903)))) := by norm_num
    rw [hfac] at hdvd
    rcases (Nat.Prime.dvd_mul hq).mp hdvd with h | hrest
    · rw [prime_eq_of_dvd_pow q 2 5 hq (by norm_num) h]
      exact powMod_pow_ne_one _ _ _ (by norm_num) (by norm_num) (by decide)
    rcases (Nat.Prime.dvd_mul hq).mp hrest with h | hrest
    · rw [(Nat.prime_dvd_prime_iff_eq hq (by norm_num)).mp h]
      exact powMod_pow_ne_one _ _ _ (by norm_num) (by norm_num) (by decide)
    rcases (Nat.Prime.dvd_mul hq).mp hrest with h | hrest
    · rw [(Nat.prime_dvd_prime_iff_eq hq (by norm_num)).mp h]
      exact powMod_pow_ne_one _ _ _ (by norm_num) (by norm_num) (by decide)
    rcases (Nat.Prime.dvd_mul hq).mp hrest with h | hrest
    · rw [(Nat.prime_dvd_prime_iff_eq hq (by norm_num)).mp h]
      exact powMod_pow_ne_one _ _ _ (by norm_num) (by norm_num) (by decide)
    rw [(Nat.prime_dvd_prime_iff_eq hq prime_65865678001877903).mp hrest]
    exact powMod_pow_ne_one _ _ _ (by norm_num) (by norm_num) (by decide)

lemma prime_405928799 : Nat.Prime 405928799 := by
  apply lucas_primality 405928799 ((22 : Nat) : ZMod 405928799)
  · exact powMod_pow_eq_one _ _ _ (by norm_num) (by norm_num) (by decide)
  · intro q hq hdvd
    have hfac : (405928799 - 1 : Nat) = 2 * (11 * (3691 * 4999)) := by norm_num
    rw [hfac] at hdvd
    rcases (Nat.Prime.dvd_mul hq).mp hdvd with h | hrest
    · rw [(Nat.prime_dvd_prime_iff_eq hq (by norm_num)).mp h]
      exact powMod_pow_ne_one _ _ _ (by norm_num) (by norm_num) (by decide)
    rcases (Nat.Prime.dvd_mul hq).mp hrest with h | hrest
    · rw [(Nat.prime_dvd_prime_iff_eq hq (by norm_num)).mp h]
      exact powMod_pow_ne_one _ _ _ (by norm_num) (by norm_num) (by decide)
    rcases (Nat.Prime.dvd_mul hq).mp hrest with h | hrest
    · rw [(Nat.prime_dvd_prime_iff_eq hq (by norm_num)).mp h]
      exact powMod_pow_ne_one _ _ _ (by norm_num) (by norm_num) (by decide)
    rw [(Nat.prime_dvd_prime_iff_eq hq (by norm_num)).mp hrest]
    exact powMod_pow_ne_one _ _ _ (by norm_num) (by norm_num) (by decide)

lemma prime_21888242871839275222246405745257275088548364400416034343698204186575808495617 : Nat.Prime 21888242871839275222246405745257275088548364400416034343698204186575808495617 := by
  apply lucas_primality 21888242871839275222246405745257275088548364400416034343698204186575808495617 ((5 : Nat) : ZMod 21888242871839275222246405745257275088548364400416034343698204186575808495617)
  · exact powMod_pow_eq_one _ _ _ (by norm_num) (by norm_num) (by decide)
  · intro q hq hdvd
    have hfac : (21888242871839275222246405745257275088548364400416034343698204186575808495617 - 1 : Nat) = 2^28 * (3^2 * (13 * (29 * (983 * (11003 * (237073 * (405928799 * (1670836401704629 * (13818364434197438864469338081))))))))) := by norm_num
    rw [hfac] at hdvd
    rcases (Nat.Prime.dvd_mul hq).mp hdvd with h | hrest
    · rw [prime_eq_of_dvd_pow q 2 28 hq (by norm_num) h]
      exact powMod_pow_ne_one _ _ _ (by norm_num) (by norm_num) (by decide)
    rcases (Nat.Prime.dvd_mul hq).mp hrest with h | hrest
    · rw [prime_eq_of_dvd_pow q 3 2 hq (by norm_num) h]
      exact powMod_pow_ne_one _ _ _ (by norm_num) (by norm_num) (by decide)
    rcases (Nat.Prime.dvd_mul hq).mp hrest with h | hrest
    · rw [(Nat.prime_dvd_prime_iff_eq hq (by norm_num)).mp h]
      exact powMod_pow_ne_one _ _ _ (by norm_num) (by norm_num) (by decide)
    rcases (Nat.Prime.dvd_mul hq).mp hrest with h | hrest
    · rw [(Nat.prime_dvd_prime_iff_eq hq (by norm_num)).mp h]
      exact powMod_pow_ne_one _ _ _ (by norm_num) (by norm_num) (by decide)
    rcases (Nat.Prime.dvd_mul hq).mp hrest with h | hrest
    · rw [(Nat.prime_dvd_prime_iff_eq hq (by norm_num)).mp h]
      exact powMod_pow_ne_one _ _ _ (by norm_num) (by norm_num) (by decide)
    rcases (Nat.Prime.dvd_mul hq).mp hrest with h | hrest
    · rw [(Nat.prime_dvd_prime_iff_eq hq (by norm_num)).mp h]
      exact powMod_pow_ne_one _ _ _ (by norm_num) (by norm_num) (by decide)
    rcases (Nat.Prime.dvd_mul hq).mp hrest with h | hrest
    · rw [(Nat.prime_dvd_prime_iff_eq hq (by norm_num)).mp h]
      exact powMod_pow_ne_one _ _ _ (by norm_num) (by norm_num) (by decide)
    rcases (Nat.Prime.dvd_mul hq).mp hrest with h | hrest
    · rw [(Nat.prime_dvd_prime_iff_eq hq prime_405928799).mp h]
      exact powMod_pow_ne_one _ _ _ (by norm_num) (by norm_num) (by decide)
    rcases (Nat.Prime.dvd_mul hq).mp hrest with h | hrest
    · rw [(Nat.prime_dvd_prime_iff_eq hq prime_1670836401704629).mp h]
      exact powMod_pow_ne_one _ _ _ (by norm_num) (by norm_num) (by decide)
    rw [(Nat.prime_dvd_prime_iff_eq hq prime_13818364434197438864469338081).mp hrest]
    exact powMod_pow_ne_one _ _ _ (by norm_num) (by norm_num) (by decide)

lemma prime_p : Nat.Prime p :=
  prime_21888242871839275222246405745257275088548364400416034343698204186575808495617

instance : Fact (Nat.Prime p) := ⟨prime_p⟩

instance : NeZero p := ⟨prime_p.ne_zero⟩

instance : Fact (1 < p) := ⟨prime_p.one_lt⟩

lemma sum_div_mod_two (n x : Nat) :
    (∑ i in Finset.range n, x / 2^i % 2 * 2^i) = x % 2^n := by
  induction n with
  | zero => simp [Nat.mod_one]
  | succ n ih =>
    rw [Finset.sum_range_succ, ih, pow_succ, Nat.mod_mul]
    ring

lemma num2bits_complete (n x : Nat) (hx : x < 2^n) :
    Num2BitsConstraints n ((x : Nat) : F) (natBits x) := by
  constructor
  · intro i _
    rcases Nat.mod_two_eq_zero_or_one (x / 2^i) with h | h <;> simp [natBits, h]
  · have hcast : (∑ i in Finset.range n, natBits x i * 2^i)
        = ((∑ i in Finset.range n, x / 2^i % 2 * 2^i : Nat) : F) := by
      unfold natBits
      push_cast
      rfl
    rw [hcast, sum_div_mod_two, Nat.mod_eq_of_lt hx]

lemma sum_bits_lt (n : Nat) (c : Nat → Nat) (hc : ∀ i < n, c i ≤ 1) :
    (∑ i in Finset.range n, c i * 2^i) < 2^n := by
  induction n with
  | zero => simp
  | succ n ih =>
    rw [Finset.sum_range_succ]
    have h1 : (∑ i in Finset.range n, c i * 2^i) < 2^n :=
      ih (fun i hi => hc i (Nat.lt_succ_of_lt hi))
    have h2 : c n * 2^n ≤ 2^n := by
      have := hc n (Nat.lt_succ_self n)
      calc c n * 2^n ≤ 1 * 2^n := Nat.mul_le_mul_right _ this
      _ = 2^n := Nat.one_mul _
    calc (∑ i in Finset.range n, c i * 2^i) + c n * 2^n < 2^n + 2^n := by omega
    _ = 2^(n+1) := by ring

lemma num2bits_nat (n : Nat) (x : F) (bits : Nat → F) (hn : 2^n < p)
    (h : Num2BitsConstraints n x bits) :
    ∃ N : Nat, N < 2^n ∧ x = ((N : Nat) : F) ∧ x.val = N ∧
      N = ∑ i in Finset.range n, (if bits i = 1 then 1 else 0) * 2^i := by
  obtain ⟨hbool, hsum⟩ := h
  set c : Nat → Nat := fun i => if bits i = 1 then 1 else 0 with hc
  have hbit : ∀ i < n, bits i = ((c i : Nat) : F) := by
    intro i hi
    rcases mul_eq_zero.mp (hbool i hi) with h0 | h1
    · have hne : bits i ≠ 1 := by
        rw [h0]; exact zero_ne_one
      simp [hc, h0, hne]
    · have heq1 : bits i = 1 := by
        have := sub_eq_zero.mp h1
        simpa using this
      simp [hc, heq1]
  set N : Nat := ∑ i in Finset.range n, c i * 2^i with hN
  have hNlt : N < 2^n := sum_bits_lt n c (fun i _ => by by_cases hb : bits i = 1 <;> simp [hc, hb])
  have hxN : x = ((N : Nat) : F) := by
    rw [← hsum, hN]
    push_cast
    apply Finset.sum_congr rfl
    intro i hi
    rw [hbit i (Finset.mem_range.mp hi)]
  refine ⟨N, hNlt, hxN, ?_, hN⟩
  rw [hxN, ZMod.val_cast_of_lt (lt_trans hNlt hn)]

lemma num2bits_val_lt (n : Nat) (x : F) (bits : Nat → F) (hn : 2^n < p)
    (h : Num2BitsConstraints n x bits) : x.val < 2^n := by
  obtain ⟨N, hNlt, _, hval, _⟩ := num2bits_nat n x bits hn h
  omega

lemma num2bits_top_bit (n : Nat) (x : F) (bits : Nat → F) (hn : 2^(n+1) < p)
    (h : Num2BitsConstraints (n+1) x bits) (htop : bits n = 0) : x.val < 2^n := by
  obtain ⟨hbool, hsum⟩ := h
  have hstep : Num2BitsConstraints n x bits := by
    refine ⟨fun i hi => hbool i (Nat.lt_succ_of_lt hi), ?_⟩
    rw [← hsum, Finset.sum_range_succ, htop]
    ring
  exact num2bits_val_lt n x bits (lt_trans (Nat.pow_lt_pow_succ (by norm_num)) hn) hstep

lemma natCast_inj_of_lt (a b : Nat) (ha : a < p) (hb : b < p) (h : ((a : Nat) : F) = b) :
    a = b := by
  have h2 := congrArg ZMod.val h
  rwa [ZMod.val_cast_of_lt ha, ZMod.val_cast_of_lt hb] at h2

lemma lessThan_sound (va vb : Nat) (bits : Nat → F) (out : F)
    (hva : va < 2^64) (hvb : vb < 2^64)
    (h : LessThanConstraints 64 ((va : Nat) : F) ((vb : Nat) : F) bits out)
    (hout : out = 1) : va < vb := by
  obtain ⟨hn2b, houtdef⟩ := h
  have hbit : bits 64 = 0 := by
    have h1 : (1 : F) - bits 64 = 1 := by rw [← houtdef, hout]
    exact sub_eq_self.mp h1
  have hvallt : (((va : Nat) : F) + 2^64 - ((vb : Nat) : F)).val < 2^64 :=
    num2bits_top_bit 64 _ bits (by unfold p; norm_num) hn2b hbit
  set x : F := ((va : Nat) : F) + 2^64 - ((vb : Nat) : F) with hx
  have hxcast : ((x.val + vb : Nat) : F) = ((va + 2^64 : Nat) : F) := by
    push_cast
    rw [ZMod.natCast_rightInverse x]
    rw [hx]
    ring
  have hp65 : (2:Nat)^65 < p := by unfold p; norm_num
  have h64 : (2:Nat)^65 = 2^64 + 2^64 := by ring
  have heq : x.val + vb = va + 2^64 := by
    apply natCast_inj_of_lt _ _ _ _ hxcast
    · omega
    · omega
  omega

lemma lessThan_complete (va vb : Nat) (hva : va < 2^64) (hvb : vb < 2^64) (hlt : va < vb) :
    LessThanConstraints 64 ((va : Nat) : F) ((vb : Nat) : F) (natBits (va + 2^64 - vb)) 1 := by
  have hD : va + 2^64 - vb < 2^64 := by omega
  have hD65 : va + 2^64 - vb < 2^65 := by omega
  constructor
  · have hcast : ((va + 2^64 - vb : Nat) : F) = ((va : Nat) : F) + 2^64 - ((vb : Nat) : F) := by
      have hle : vb ≤ va + 2^64 := by omega
      rw [Nat.cast_sub hle]
      push_cast
      ring
    rw [← hcast]
    exact num2bits_complete 65 (va + 2^64 - vb) hD65
  · have hzero : natBits (va + 2^64 - vb) 64 = 0 := by
      unfold natBits
      rw [Nat.div_eq_of_lt hD]
      simp
    rw [hzero]
    ring

lemma zero_sat_num2bits (n : Nat) : Num2BitsConstraints n 0 (fun _ => 0) := by
  constructor
  · intro i _
    ring
  · simp

lemma sat0 : CircuitConstraints P0 5 inp0 aux0 := by
  refine ⟨?_, ?_, ?_, ⟨?_, ?_⟩, rfl, ⟨?_, ?_⟩, rfl, rfl, ?_, fun _ => trivial⟩
  · exact zero_sat_num2bits 5
  · exact num2bits_complete 64 1 (by norm_num)
  · exact num2bits_complete 64 2 (by norm_num)
  · have := (lessThan_complete 1 2 (by norm_num) (by norm_num) (by norm_num)).1
    convert this using 2
  · have := (lessThan_complete 1 2 (by norm_num) (by norm_num) (by norm_num)).2
    convert this using 2
  · have := (lessThan_complete 0 1 (by norm_num) (by norm_num) (by norm_num)).1
    convert this using 2
  · have := (lessThan_complete 0 1 (by norm_num) (by norm_num) (by norm_num)).2
    convert this using 2
  · show (0 : F) = merkleHash P0 inp0.value aux0.indexBits inp0.siblings 5
    rfl

lemma satC4 : CircuitConstraints P0 5 inpC4 auxC4 := by
  obtain ⟨s1, s2, s3, s4, s5, _, _, s8, s9, _⟩ := sat0
  have h64p : (2:Nat)^64 ≤ p := by unfold p; norm_num
  have hgt : GreaterThanConstraints 64 inpC4.value inpC4.lowerbound auxC4.gtBits auxC4.gtOut := by
    refine ⟨⟨?_, ?_⟩, ?_⟩
    · intro i _
      show (0:F) * ((0:F) - 1) = 0
      ring
    · show (∑ i in Finset.range 65, auxC4.gtBits i * 2^i) = inpC4.lowerbound + 2^64 - inpC4.value
      have hlb : inpC4.lowerbound = ((p - 2^64 + 1 : Nat) : F) := rfl
      have hval : inpC4.value = ((1 : Nat) : F) := rfl
      have hbits : ∀ i, auxC4.gtBits i = 0 := fun _ => rfl
      have hcast : ((p - 2^64 + 1 : Nat) : F) = ((p : Nat) : F) - 2^64 + 1 := by
        rw [Nat.cast_add, Nat.cast_sub h64p]
        push_cast
        ring
      rw [hlb, hval, hcast, ZMod.natCast_self]
      simp [hbits]
    · show auxC4.gtOut = 1 - auxC4.gtBits 64
      show (1 : F) = 1 - 0
      ring
  exact ⟨s1, s2, s3, s4, s5, hgt, rfl, s8, s9, fun _ => trivial⟩

/-- C1: the Merkle path reconstructor is a `depth+1`-state machine: the
initial running hash is `Poseidon(value)`; at every level `i < depth` the
decoded index bit is boolean and the next running hash is `Hash(left, right)`
with `(left, right) = (runningHash, sibling)` when the bit is `0` and
`(sibling, runningHash)` when it is `1`, via the branch-free
multiplication-based select; and every satisfying witness has
`root = runningHash[depth]`, so a witness in which they differ is
unsatisfiable. -/
theorem merkle_path_reconstructor_state_machine (P : CircuitParams) (depth : Nat)
    (inp : Inputs) (w : Aux) (hsat : CircuitConstraints P depth inp w) :
    merkleHash P inp.value w.indexBits inp.siblings 0 = P.poseidon1 inp.value ∧
    (∀ i < depth,
      (w.indexBits i = 0 ∨ w.indexBits i = 1) ∧
      (w.indexBits i = 0 →
        merkleHash P inp.value w.indexBits inp.siblings (i+1) =
          P.poseidon2 (merkleHash P inp.value w.indexBits inp.siblings i) (inp.siblings i)) ∧
      (w.indexBits i = 1 →
        merkleHash P inp.value w.indexBits inp.siblings (i+1) =
          P.poseidon2 (inp.siblings i) (merkleHash P inp.value w.indexBits inp.siblings i))) ∧
    inp.root = merkleHash P inp.value w.indexBits inp.siblings depth := by
  obtain ⟨⟨hbool, _⟩, _, _, _, _, _, _, _, hroot, _⟩ := hsat
  refine ⟨rfl, ?_, hroot⟩
  intro i hi
  have hstep : merkleHash P inp.value w.indexBits inp.siblings (i+1) =
      P.poseidon2
        ((1 - w.indexBits i) * merkleHash P inp.value w.indexBits inp.siblings i
          + w.indexBits i * inp.siblings i)
        (w.indexBits i * merkleHash P inp.value w.indexBits inp.siblings i
          + (1 - w.indexBits i) * inp.siblings i) := rfl
  have hb : w.indexBits i = 0 ∨ w.indexBits i = 1 := by
    rcases mul_eq_zero.mp (hbool i hi) with h0 | h1
    · exact Or.inl h0
    · right
      have hsub := sub_eq_zero.mp h1
      simpa using hsub
  refine ⟨hb, ?_, ?_⟩
  · intro h0
    rw [hstep, h0]
    congr 1 <;> ring
  · intro h1
    rw [hstep, h1]
    congr 1 <;> ring

theorem merkle_path_reconstructor_state_machine_witness :
    CircuitConstraints P0 5 inp0 aux0 ∧
    inp0.root = merkleHash P0 inp0.value aux0.indexBits inp0.siblings 5 :=
  ⟨sat0, (merkle_path_reconstructor_state_machine P0 5 inp0 aux0 sat0).2.2⟩

/-- C2: the `siblings[0] === Poseidon(key)` constraint makes every assignment
in which the level-0 sibling differs from the hash of the key signal
unsatisfiable; in particular changing `key` while keeping `value` and the
siblings fixed kills the proof. -/
theorem level0_sibling_key_binding (P : CircuitParams) (depth : Nat) (inp : Inputs)
    (h : inp.siblings 0 ≠ P.poseidon1 inp.key) : ¬ Satisfiable P depth inp := by
  rintro ⟨w, hw⟩
  exact h hw.2.2.2.2.2.2.2.1

theorem level0_sibling_key_binding_witness :
    inpC2.siblings 0 ≠ P0.poseidon1 inpC2.key ∧ ¬ Satisfiable P0 5 inpC2 := by
  have h : inpC2.siblings 0 ≠ P0.poseidon1 inpC2.key := by
    show (1 : F) ≠ 0
    exact one_ne_zero
  exact ⟨h, level0_sibling_key_binding P0 5 inpC2 h⟩

/-- C3: with `value`, `lowerbound`, `upperbound` all below `2^64`, the
circuit is satisfiable only if `lowerbound < value < upperbound`; equality at
either end is unsatisfiable; and any value strictly inside the interval
satisfies both comparator gadgets with output `1`. -/
theorem bounds_check_strict_open_interval (P : CircuitParams) (depth : Nat) (inp : Inputs)
    (v l u : Nat) (hv : inp.value = ((v : Nat) : F)) (hl : inp.lowerbound = ((l : Nat) : F))
    (hu : inp.upperbound = ((u : Nat) : F))
    (hv64 : v < 2^64) (hl64 : l < 2^64) (hu64 : u < 2^64) :
    (Satisfiable P depth inp → l < v ∧ v < u) ∧
    (v = l → ¬ Satisfiable P depth inp) ∧
    (v = u → ¬ Satisfiable P depth inp) ∧
    (l < v → v < u → ∃ ltBits ltOut gtBits gtOut,
      LessThanConstraints 64 inp.value inp.upperbound ltBits ltOut ∧ ltOut = 1 ∧
      GreaterThanConstraints 64 inp.value inp.lowerbound gtBits gtOut ∧ gtOut = 1) := by
  have hmain : Satisfiable P depth inp → l < v ∧ v < u := by
    rintro ⟨w, hw⟩
    obtain ⟨_, _, _, hlt, hltOut, hgt, hgtOut, _, _, _⟩ := hw
    rw [hv, hu] at hlt
    rw [hv, hl] at hgt
    exact ⟨lessThan_sound l v w.gtBits w.gtOut hl64 hv64 hgt hgtOut,
           lessThan_sound v u w.ltBits w.ltOut hv64 hu64 hlt hltOut⟩
  refine ⟨hmain, ?_, ?_, ?_⟩
  · intro hveq hs
    have := hmain hs
    omega
  · intro hveq hs
    have := hmain hs
    omega
  · intro h1 h2
    refine ⟨natBits (v + 2^64 - u), 1, natBits (l + 2^64 - v), 1, ?_, rfl, ?_, rfl⟩
    · rw [hv, hu]
      exact lessThan_complete v u hv64 hu64 h2
    · show LessThanConstraints 64 inp.lowerbound inp.value (natBits (l + 2^64 - v)) 1
      rw [hv, hl]
      exact lessThan_complete l v hl64 hv64 h1

theorem bounds_check_strict_open_interval_witness : 0 < 1 ∧ 1 < 2 :=
  (bounds_check_strict_open_interval P0 5 inp0 1 0 2 rfl rfl rfl (by decide) (by decide)
    (by decide)).1 ⟨aux0, sat0⟩

/-- C4 counterexample: a satisfying witness of the full depth-5 constraint
system whose `lowerbound` has canonical representative `p - 2^64 + 1 ≥ 2^64`;
the circuit never bit-decomposes `lowerbound`, so the claim that all three
signals are constrained below `2^64` fails. -/
theorem lowerbound_not_bit_constrained :
    CircuitConstraints P0 5 inpC4 auxC4 ∧ ¬ inpC4.lowerbound.val < 2^64 := by
  refine ⟨satC4, ?_⟩
  have h64p : (2:Nat)^64 ≤ p := by unfold p; norm_num
  have hplarge : (2:Nat)^65 < p := by unfold p; norm_num
  have hval : inpC4.lowerbound.val = p - 2^64 + 1 := by
    show (((p - 2^64 + 1 : Nat) : F)).val = p - 2^64 + 1
    apply ZMod.val_cast_of_lt
    omega
  omega

/-- C4 amended: the circuit applies `Num2Bits(64)` to `value` and
`upperbound` only, so every satisfying witness has those two signals strictly
below `2^64`; `lowerbound` receives no such constraint. -/
theorem value_upperbound_bit_constrained (P : CircuitParams) (depth : Nat)
    (inp : Inputs) (w : Aux) (h : CircuitConstraints P depth inp w) :
    inp.value.val < 2^64 ∧ inp.upperbound.val < 2^64 := by
  obtain ⟨_, hvb, hub, _, _, _, _, _, _, _⟩ := h
  have hp : (2:Nat)^64 < p := by unfold p; norm_num
  exact ⟨num2bits_val_lt 64 _ _ hp hvb, num2bits_val_lt 64 _ _ hp hub⟩

theorem value_upperbound_bit_constrained_witness :
    CircuitConstraints P0 5 inp0 aux0 ∧ inp0.value.val < 2^64 ∧ inp0.upperbound.val < 2^64 :=
  ⟨sat0, value_upperbound_bit_constrained P0 5 inp0 aux0 sat0⟩

/-- C5: the width-5 bit decomposer is satisfiable exactly for field elements
whose canonical representative is below `2^5`; any satisfying bit assignment
is boolean with `Σ b[i]·2^i = x`; and in the depth-5 circuit every satisfying
witness has `index` below `2^5`. -/
theorem bit_decomposer_spec (x : F) :
    ((∃ bits : Nat → F, Num2BitsConstraints 5 x bits) ↔ x.val < 2^5) ∧
    (∀ bits : Nat → F, Num2BitsConstraints 5 x bits →
      (∀ i < 5, bits i = 0 ∨ bits i = 1) ∧ (∑ i in Finset.range 5, bits i * 2^i) = x) ∧
    (∀ (P : CircuitParams) (inp : Inputs) (w : Aux),
      CircuitConstraints P 5 inp w → inp.index.val < 2^5) := by
  have hp : (2:Nat)^5 < p := by unfold p; norm_num
  refine ⟨⟨?_, ?_⟩, ?_, ?_⟩
  · rintro ⟨bits, hb⟩
    exact num2bits_val_lt 5 x bits hp hb
  · intro hx
    refine ⟨natBits x.val, ?_⟩
    have h := num2bits_complete 5 x.val hx
    rwa [ZMod.natCast_rightInverse x] at h
  · intro bits hb
    refine ⟨?_, hb.2⟩
    intro i hi
    rcases mul_eq_zero.mp (hb.1 i hi) with h0 | h1
    · exact Or.inl h0
    · right
      have hsub := sub_eq_zero.mp h1
      simpa using hsub
  · intro P inp w hw
    exact num2bits_val_lt 5 _ _ hp hw.1

theorem bit_decomposer_spec_witness : (((7 : Nat) : F)).val < 2^5 :=
  (bit_decomposer_spec ((7 : Nat) : F)).1.mp
    ⟨natBits 7, num2bits_complete 5 7 (by decide)⟩

/-- C6: every satisfying witness makes the always-enabled EdDSA-Poseidon
verification equation hold for message `root` against `pubKey` and
`(signedRoot_R8, signedRoot_S)`; there is no boolean output signal, and an
invalid signature makes the whole constraint system unsatisfiable. -/
theorem signature_verifier_binding (P : CircuitParams) (depth : Nat) (inp : Inputs) :
    (∀ w : Aux, CircuitConstraints P depth inp w →
      P.eddsaVerifies (inp.pubKey 0) (inp.pubKey 1) inp.signedRoot_S
        (inp.signedRoot_R8 0) (inp.signedRoot_R8 1) inp.root) ∧
    (¬ P.eddsaVerifies (inp.pubKey 0) (inp.pubKey 1) inp.signedRoot_S
        (inp.signedRoot_R8 0) (inp.signedRoot_R8 1) inp.root →
      ¬ Satisfiable P depth inp) := by
  have hver : ∀ w : Aux, CircuitConstraints P depth inp w →
      P.eddsaVerifies (inp.pubKey 0) (inp.pubKey 1) inp.signedRoot_S
        (inp.signedRoot_R8 0) (inp.signedRoot_R8 1) inp.root := by
    intro w hw
    exact hw.2.2.2.2.2.2.2.2.2 one_ne_zero
  refine ⟨hver, ?_⟩
  rintro hnot ⟨w, hw⟩
  exact hnot (hver w hw)

theorem signature_verifier_binding_witness :
    ¬ P1.eddsaVerifies (inp0.pubKey 0) (inp0.pubKey 1) inp0.signedRoot_S
        (inp0.signedRoot_R8 0) (inp0.signedRoot_R8 1) inp0.root ∧
    ¬ Satisfiable P1 5 inp0 := by
  have h : ¬ P1.eddsaVerifies (inp0.pubKey 0) (inp0.pubKey 1) inp0.signedRoot_S
      (inp0.signedRoot_R8 0) (inp0.signedRoot_R8 1) inp0.root := by
    show ¬ ((0 : F) = 1)
    exact zero_ne_one
  exact ⟨h, (signature_verifier_binding P1 5 inp0).2 h⟩

/-- C7: in the instantiated depth-5 component, exactly `key`, `lowerbound`,
`upperbound` and the two `pubKey` entries are public; `value`, `index`, the
five `siblings`, `root`, the two `signedRoot_R8` entries and `signedRoot_S`
are private — in particular the Merkle root is not a public signal. -/
theorem main_public_signals :
    (∀ s : MainSignal, mainSignalIsPublic s = true ↔
      (s = .key ∨ s = .lowerbound ∨ s = .upperbound ∨ ∃ i, s = .pubKey i)) ∧
    mainSignalIsPublic .root = false ∧
    mainSignalIsPublic .value = false ∧
    mainSignalIsPublic .index = false ∧
    (∀ i, mainSignalIsPublic (.siblings i) = false) ∧
    (∀ i, mainSignalIsPublic (.signedRoot_R8 i) = false) ∧
    mainSignalIsPublic .signedRoot_S = false := by
  refine ⟨?_, rfl, rfl, rfl, fun i => rfl, fun i => rfl, rfl⟩
  intro s
  cases s <;> simp [mainSignalIsPublic]
lemma buildLeaves_length (h1 : F → F) (data : List (F × F)) :
    (buildLeaves h1 data).length = 2 * data.length := by
  induction data with
  | nil => rfl
  | cons kv rest ih =>
    obtain ⟨k, v⟩ := kv
    simp [buildLeaves, ih]
    omega

lemma buildLeaves_get (h1 : F → F) (data : List (F × F)) (i : Nat) (k v : F)
    (hkv : data.get? i = some (k, v)) :
    (buildLeaves h1 data).get? (2*i) = some (h1 k) ∧
    (buildLeaves h1 data).get? (2*i+1) = some (h1 v) := by
  induction data generalizing i with
  | nil => simp at hkv
  | cons kv0 rest ih =>
    obtain ⟨k0, v0⟩ := kv0
    cases i with
    | zero =>
      simp at hkv
      obtain ⟨hk, hv⟩ := hkv
      simp [buildLeaves, hk, hv]
    | succ i =>
      have hkv2 : rest.get? i = some (k, v) := by simpa using hkv
      obtain ⟨ha, hb⟩ := ih i hkv2
      have h2i : 2*(i+1) = 2*i + 1 + 1 := by ring
      constructor
      · rw [h2i]
        show (buildLeaves h1 ((k0, v0) :: rest)).get? (2*i+1+1) = some (h1 k)
        show (h1 k0 :: h1 v0 :: buildLeaves h1 rest).get? (2*i+1+1) = some (h1 k)
        rw [List.get?_cons_succ, List.get?_cons_succ]
        exact ha
      · rw [h2i]
        show (h1 k0 :: h1 v0 :: buildLeaves h1 rest).get? (2*i+1+1+1) = some (h1 v)
        rw [List.get?_cons_succ, List.get?_cons_succ]
        exact hb

lemma proofSiblingsAux_head (h2 : F → F → F) (fuel : Nat) (level : List F) (j : Nat)
    (hlen : 2 ≤ level.length) (hj : j % 2 = 1) (s : F)
    (hget : level.get? (j-1) = some s) (hfuel : 0 < fuel) :
    ∃ rest, proofSiblingsAux h2 fuel level j = s :: rest := by
  cases fuel with
  | zero => omega
  | succ fuel =>
    refine ⟨proofSiblingsAux h2 fuel (nextLevel h2 level) (j / 2), ?_⟩
    have hnle : ¬ level.length ≤ 1 := by omega
    simp only [proofSiblingsAux]
    rw [if_neg hnle, if_pos hj, hget]

/-- C9: `buildTree` places the key hash at leaf slot `2i` and the value hash
at slot `2i+1` for the `i`-th key-value pair, and `getProof(i)` returns the
odd leaf index `2i+1`, so every emitted proof has the value leaf as the right
child at level 0 (low selector bit `1`) with its level-0 sibling equal to the
key's hash. -/
theorem merkle_service_value_leaf (h1 : F → F) (h2 : F → F → F)
    (data : List (F × F)) (i : Nat) (k v : F) (hkv : data.get? i = some (k, v)) :
    (buildLeaves h1 data).get? (2*i) = some (h1 k) ∧
    (buildLeaves h1 data).get? (2*i+1) = some (h1 v) ∧
    ∃ pr : MerkleProofData, getProof h1 h2 data i = some pr ∧
      pr.index = 2*i + 1 ∧ pr.index % 2 = 1 ∧
      pr.siblings.head? = some (h1 k) := by
  obtain ⟨hkey, hvalue⟩ := buildLeaves_get h1 data i k v hkv
  refine ⟨hkey, hvalue, ?_⟩
  have hi : i < data.length := by
    by_contra hcon
    rw [List.get?_eq_none.mpr (by omega)] at hkv
    exact Option.noConfusion hkv
  have hlen : 2 ≤ (buildLeaves h1 data).length := by
    rw [buildLeaves_length]
    omega
  have hj : (2*i + 1) % 2 = 1 := by omega
  have hsub : (2*i + 1) - 1 = 2*i := by omega
  obtain ⟨rest, hrest⟩ := proofSiblingsAux_head h2 (buildLeaves h1 data).length
    (buildLeaves h1 data) (2*i+1) hlen hj (h1 k) (by rw [hsub]; exact hkey) (by omega)
  refine ⟨⟨2*i + 1,
    proofSiblingsAux h2 (buildLeaves h1 data).length (buildLeaves h1 data) (2*i+1),
    treeRootAux h2 (buildLeaves h1 data).length (buildLeaves h1 data)⟩, ?_, rfl, hj, ?_⟩
  · simp [getProof, hi]
  · show (proofSiblingsAux h2 (buildLeaves h1 data).length (buildLeaves h1 data)
        (2*i+1)).head? = some (h1 k)
    rw [hrest]
    rfl

theorem merkle_service_value_leaf_witness :
    ([((0:F), (1:F))].get? 0 = some ((0:F), (1:F))) ∧
    ((buildLeaves (fun x => x) [((0:F), (1:F))]).get? 0 = some 0 ∧
     (buildLeaves (fun x => x) [((0:F), (1:F))]).get? 1 = some 1 ∧
     ∃ pr : MerkleProofData,
       getProof (fun x => x) (fun a b => a + b) [((0:F), (1:F))] 0 = some pr ∧
       pr.index = 1 ∧ pr.index % 2 = 1 ∧ pr.siblings.head? = some 0) :=
  ⟨rfl, merkle_service_value_leaf (fun x => x) (fun a b => a + b)
    [((0:F), (1:F))] 0 0 1 rfl⟩

/-- C10: the two verification entry points are total boolean functions whose
result is `true` exactly when every internal step succeeds and the underlying
verifier answers `true`; any thrown error (verification-key fetch, malformed
proof, non-numeric signature or public-key string) is caught and becomes
`false`, indistinguishable from a cryptographic rejection. -/
theorem verification_entry_points_total :
    (∀ (VK : Type) (load : Except String VK) (gv : VK → Except String Bool),
      (verifyProofImpl load gv = true ↔ ∃ vk, load = .ok vk ∧ gv vk = .ok true)) ∧
    (∀ (parse : String → Except String F)
       (vs : F → (F × F) × F → F × F → Except String Bool)
       (message pk0 pk1 r0 r1 s : JSValue),
      (signatureVerifyImpl parse vs message pk0 pk1 r0 r1 s = true ↔
        ∃ m a0 a1 x0 x1 sv,
          toBigInt parse message = .ok m ∧ toBigInt parse pk0 = .ok a0 ∧
          toBigInt parse pk1 = .ok a1 ∧ toBigInt parse r0 = .ok x0 ∧
          toBigInt parse r1 = .ok x1 ∧ toBigInt parse s = .ok sv ∧
          vs m ((x0, x1), sv) (a0, a1) = .ok true)) := by
  constructor
  · intro VK load gv
    cases load with
    | error e => simp [verifyProofImpl]
    | ok vk =>
      cases hgv : gv vk with
      | error e => simp [verifyProofImpl, hgv]
      | ok b => simp [verifyProofImpl, hgv]
  · intro parse vs message pk0 pk1 r0 r1 s
    cases hm : toBigInt parse message with
    | error e => simp [signatureVerifyImpl, hm]
    | ok m =>
    cases ha0 : toBigInt parse pk0 with
    | error e => simp [signatureVerifyImpl, hm, ha0]
    | ok a0 =>
    cases ha1 : toBigInt parse pk1 with
    | error e => simp [signatureVerifyImpl, hm, ha0, ha1]
    | ok a1 =>
    cases hx0 : toBigInt parse r0 with
    | error e => simp [signatureVerifyImpl, hm, ha0, ha1, hx0]
    | ok x0 =>
    cases hx1 : toBigInt parse r1 with
    | error e => simp [signatureVerifyImpl, hm, ha0, ha1, hx0, hx1]
    | ok x1 =>
    cases hs : toBigInt parse s with
    | error e => simp [signatureVerifyImpl, hm, ha0, ha1, hx0, hx1, hs]
    | ok sv =>
    cases hvs : vs m ((x0, x1), sv) (a0, a1) with
    | error e => simp [signatureVerifyImpl, hm, ha0, ha1, hx0, hx1, hs, hvs]
    | ok b => simp [signatureVerifyImpl, hm, ha0, ha1, hx0, hx1, hs, hvs]

theorem verification_entry_points_total_witness :
    verifyProofImpl (Except.ok ()) (fun _ : Unit => Except.ok true) = true :=
  (verification_entry_points_total.1 Unit (Except.ok ())
    (fun _ => Except.ok true)).mpr ⟨(), rfl, rfl⟩

theorem main_public_signals_witness : mainSignalIsPublic MainSignal.root = false :=
  main_public_signals.2.1
